import Mathlib

/-!
Shallow embedding of `QuiverInsiderTradingUniverseSelectionAlgorithm.py`.

The algorithm's `UniverseSelection` method receives a batch of insider-trading
records, groups them by symbol into a dict (insertion-ordered), logs one line
per record, and returns the symbols whose group has at least 2 records and
whose notional sum (shares * price_per_share over records where both fields
are non-null) exceeds 100000.  `Initialize` additionally performs a sanity
check on a one-day history query.

Numeric fields are modelled as `Option ℚ` (nullable decimals), symbols as
strings, the mutable log (`self.Log`) as an explicit list of strings that is
threaded through the method.
-/

/-- One `QuiverInsiderTradingUniverse` record: `Symbol`, nullable `Shares`,
nullable `PricePerShare`, nullable `SharesOwnedFollowing`. -/
structure Record where
  symbol : String
  shares : Option ℚ
  price_per_share : Option ℚ
  shares_owned_following : Option ℤ
deriving DecidableEq

/-- String rendering of a nullable rational, as in the Python f-string
(`None` for null). Only used by the log; its exact text is irrelevant. -/
def optRatStr : Option ℚ → String
  | none => "None"
  | some q => toString q

/-- String rendering of a nullable integer. -/
def optIntStr : Option ℤ → String
  | none => "None"
  | some n => toString n

/-- The log line produced for each datum: symbol, Shares, PricePerShare and
SharesOwnedFollowing joined by commas (line 51 of the source). -/
def logLine (r : Record) : String :=
  r.symbol ++ "," ++ optRatStr r.shares ++ "," ++ optRatStr r.price_per_share
    ++ "," ++ optIntStr r.shares_owned_following

/-- One iteration of the grouping loop (lines 53–55): when the symbol is not
yet a key, a fresh empty group is created, then the datum is appended to the
symbol's group.  The Python dict is modelled as an insertion-ordered
association list. -/
def groupInsert (m : List (String × List Record)) (r : Record) :
    List (String × List Record) :=
  if (m.map Prod.fst).contains r.symbol then
    m.map (fun p => if p.1 == r.symbol then (p.1, p.2 ++ [r]) else p)
  else
    m ++ [(r.symbol, [r])]

/-- The notional sum of a group (line 59): sum of `Shares * PricePerShare`
over the records where both fields are non-null. -/
def notional (d : List Record) : ℚ :=
  (d.filterMap (fun x =>
    match x.shares, x.price_per_share with
    | some s, some p => some (s * p)
    | _, _ => none)).sum

/-- The `UniverseSelection` method (lines 41–59).  Its only interaction with
mutable state is `self.Log`, so it is embedded as a function from the incoming
log contents and the data batch to the pair (returned symbol list, outgoing
log contents). -/
def UniverseSelection (log : List String) (data : List Record) :
    List String × List String :=
  let st := data.foldl
    (fun st datum => (st.1 ++ [logLine datum], groupInsert st.2 datum))
    (log, ([] : List (String × List Record)))
  (st.2.filterMap (fun p =>
      if 2 ≤ p.2.length ∧ 100000 < notional p.2 then some p.1 else none),
   st.1)

/-- The selection result as a function of the batch alone. -/
def select (data : List Record) : List String :=
  (UniverseSelection [] data).1

/-- The loop over the history result in `Initialize` (lines 37–39): raise
`ValueError` as soon as a period holds fewer than 300 records. -/
def checkPeriods : List (List Record) → Except String Unit
  | [] => Except.ok ()
  | d :: ds =>
    if d.length < 300 then
      Except.error "Unexpected historical universe data!"
    else checkPeriods ds

/-- The history sanity check of lines 33–39: raise `ValueError` when the
one-day history query did not return exactly 1 period, then check every
returned period for at least 300 records.  `history` is the value returned by
the engine's `History` query, an input to the check. -/
def historyCheck (history : List (List Record)) : Except String Unit :=
  if history.length ≠ 1 then
    Except.error ("Unexpected history count " ++ toString history.length
      ++ "! Expected 1")
  else checkPeriods history

/-- One step of first-occurrence symbol collection: append the symbol when it
has not been seen yet. -/
def focStep (acc : List String) (r : Record) : List String :=
  if acc.contains r.symbol then acc else acc ++ [r.symbol]

/-- Symbols of a batch in order of first occurrence: the key order of the
insertion-ordered dict built by the grouping loop. -/
def firstOccurList (data : List Record) : List String :=
  data.foldl focStep []

/-- The per-symbol selection criterion applied to the group of records of
`s` in `data`: at least two records and notional above 100000. -/
def qualifies (data : List Record) (s : String) : Bool :=
  decide (2 ≤ (data.filter (fun r => r.symbol == s)).length ∧
    100000 < notional (data.filter (fun r => r.symbol == s)))

/-- The dict built by the grouping loop, in closed form: keys in
first-occurrence order, each key mapped to the sublist of records bearing
that symbol. -/
def canon (data : List Record) : List (String × List Record) :=
  (firstOccurList data).map (fun s => (s, data.filter (fun r => r.symbol == s)))

section Lemmas

lemma notional_nil : notional [] = 0 := rfl

lemma notional_append (d₁ d₂ : List Record) :
    notional (d₁ ++ d₂) = notional d₁ + notional d₂ := by
  simp [notional, List.filterMap_append]

lemma notional_cons_absent (r : Record) (d : List Record)
    (h : r.shares = none ∨ r.price_per_share = none) :
    notional (r :: d) = notional d := by
  obtain ⟨sym, sh, pr, sof⟩ := r
  rcases h with h | h
  · simp only at h
    subst h
    simp [notional, List.filterMap_cons]
  · simp only at h
    subst h
    cases sh <;> simp [notional, List.filterMap_cons]

lemma notional_cons_present (r : Record) (d : List Record) (sh pr : ℚ)
    (h1 : r.shares = some sh) (h2 : r.price_per_share = some pr) :
    notional (r :: d) = sh * pr + notional d := by
  simp [notional, List.filterMap_cons, h1, h2]

/-- The logging component and the grouping component of the loop evolve
independently. -/
lemma foldl_log_group (data : List Record) (log : List String)
    (m : List (String × List Record)) :
    data.foldl
      (fun st datum => (st.1 ++ [logLine datum], groupInsert st.2 datum))
      (log, m)
      = (log ++ data.map logLine, data.foldl groupInsert m) := by
  induction data generalizing log m with
  | nil => simp
  | cons r rs ih => simp [ih]

lemma select_def (data : List Record) :
    select data = (data.foldl groupInsert []).filterMap (fun p =>
      if 2 ≤ p.2.length ∧ 100000 < notional p.2 then some p.1 else none) := by
  simp [select, UniverseSelection, foldl_log_group]

lemma mem_foldl_focStep (data : List Record) (acc : List String) (s : String) :
    s ∈ data.foldl focStep acc ↔ s ∈ acc ∨ s ∈ data.map Record.symbol := by
  induction data generalizing acc with
  | nil => simp
  | cons r rs ih =>
    rw [List.foldl_cons, ih]
    by_cases h : r.symbol ∈ acc
    · simp [focStep, h]
      constructor
      · tauto
      · rintro (h1 | h1 | h1)
        · tauto
        · subst h1; tauto
        · tauto
    · simp [focStep, h, or_assoc]

lemma mem_firstOccurList (data : List Record) (s : String) :
    s ∈ firstOccurList data ↔ s ∈ data.map Record.symbol := by
  rw [firstOccurList, mem_foldl_focStep]
  simp

lemma nodup_foldl_focStep (data : List Record) (acc : List String)
    (h : acc.Nodup) : (data.foldl focStep acc).Nodup := by
  induction data generalizing acc with
  | nil => exact h
  | cons r rs ih =>
    rw [List.foldl_cons]
    apply ih
    by_cases hc : r.symbol ∈ acc
    · simpa [focStep, hc] using h
    · simp [focStep, hc, List.nodup_append, h]

lemma nodup_firstOccurList (data : List Record) :
    (firstOccurList data).Nodup :=
  nodup_foldl_focStep data [] List.nodup_nil

lemma keys_canon (data : List Record) :
    (canon data).map Prod.fst = firstOccurList data := by
  rw [canon, List.map_map,
    show (Prod.fst ∘ fun s => (s, data.filter (fun r => r.symbol == s)))
      = id from rfl,
    List.map_id]

/-- The grouping loop computes the closed-form dict `canon`. -/
lemma foldl_groupInsert_eq_canon (data : List Record) :
    data.foldl groupInsert [] = canon data := by
  induction data using List.reverseRecOn with
  | nil => rfl
  | append_singleton xs r ih =>
    rw [List.foldl_append, List.foldl_cons, List.foldl_nil, ih]
    by_cases hc : r.symbol ∈ firstOccurList xs
    · have hcond : ((canon xs).map Prod.fst).contains r.symbol = true := by
        rw [keys_canon]; simp [hc]
      have hfoc : firstOccurList (xs ++ [r]) = firstOccurList xs := by
        have hc' : r.symbol ∈ List.foldl focStep [] xs := hc
        simp only [firstOccurList, List.foldl_append, List.foldl_cons,
          List.foldl_nil]
        simp [focStep, hc']
      rw [groupInsert, if_pos hcond]
      simp only [canon, hfoc, List.map_map]
      apply List.map_congr_left
      intro s _
      by_cases hs : s = r.symbol
      · subst hs
        simp [Function.comp, List.filter_append]
      · simp [Function.comp, List.filter_append, hs, Ne.symm hs]
    · have hcond : ¬ (((canon xs).map Prod.fst).contains r.symbol = true) := by
        rw [keys_canon]; simp [hc]
      rw [groupInsert, if_neg hcond]
      have hfoc : firstOccurList (xs ++ [r]) = firstOccurList xs ++ [r.symbol] := by
        have hc' : r.symbol ∉ List.foldl focStep [] xs := hc
        simp only [firstOccurList, List.foldl_append, List.foldl_cons,
          List.foldl_nil]
        simp [focStep, hc']
      simp only [canon, hfoc, List.map_append]
      congr 1
      · apply List.map_congr_left
        intro s hsmem
        have hne : ¬ r.symbol = s := fun he => hc (he ▸ hsmem)
        simp [List.filter_append, hne]
      · have hnil : xs.filter (fun x => x.symbol == r.symbol) = [] := by
          rw [List.filter_eq_nil_iff]
          intro a ha
          simp only [beq_iff_eq]
          intro he
          exact hc ((mem_firstOccurList xs r.symbol).2
            (he ▸ List.mem_map_of_mem Record.symbol ha))
        simp [List.filter_append, hnil]

lemma filterMap_ite_eq_filter {α : Type} (p : α → Bool) (l : List α) :
    l.filterMap (fun a => if p a = true then some a else none) = l.filter p := by
  induction l with
  | nil => rfl
  | cons a l ih =>
    by_cases h : p a = true <;> simp [List.filterMap_cons, List.filter_cons, h, ih]

/-- The selection result is the list of first-occurrence symbols filtered by
the per-symbol criterion. -/
lemma select_characterization (data : List Record) :
    select data = (firstOccurList data).filter (qualifies data) := by
  rw [select_def, foldl_groupInsert_eq_canon, canon, List.filterMap_map,
    ← filterMap_ite_eq_filter (qualifies data) (firstOccurList data)]
  have hfun : ((fun p : String × List Record =>
        if 2 ≤ p.2.length ∧ 100000 < notional p.2 then some p.1 else none) ∘
      (fun s => (s, data.filter (fun r => r.symbol == s))))
      = fun s => if qualifies data s = true then some s else none := by
    funext s
    by_cases h : 2 ≤ (data.filter (fun r => r.symbol == s)).length ∧
        100000 < notional (data.filter (fun r => r.symbol == s))
    · simp [Function.comp, qualifies, h]
    · simp [Function.comp, qualifies, h]
  rw [hfun]

/-- Membership characterization of the selection result. -/
lemma mem_select (data : List Record) (s : String) :
    s ∈ select data ↔
      2 ≤ (data.filter (fun r => r.symbol == s)).length ∧
        100000 < notional (data.filter (fun r => r.symbol == s)) := by
  rw [select_characterization, List.mem_filter]
  constructor
  · rintro ⟨-, hq⟩
    simpa [qualifies] using hq
  · intro h
    refine ⟨?_, by simpa [qualifies] using h⟩
    rw [mem_firstOccurList]
    obtain ⟨h2, -⟩ := h
    have hpos : 0 < (data.filter (fun r => r.symbol == s)).length := by omega
    obtain ⟨r, hr⟩ := List.exists_mem_of_length_pos hpos
    have hrf := List.mem_filter.1 hr
    exact List.mem_map.2 ⟨r, hrf.1, by simpa [beq_iff_eq] using hrf.2⟩

lemma checkPeriods_error_iff (hs : List (List Record)) :
    (∃ e, checkPeriods hs = Except.error e) ↔ ∃ d ∈ hs, d.length < 300 := by
  induction hs with
  | nil => simp [checkPeriods]
  | cons d ds ih =>
    by_cases h : d.length < 300
    · simp [checkPeriods, h]
    · simp [checkPeriods, h, ih]

end Lemmas

/-- The end-to-end example batch: two records for A with notionals 60000 and
50000, one record for B with notional 1. -/
def exampleBatch : List Record :=
  [⟨"A", some 1000, some 60, none⟩, ⟨"A", some 1000, some 50, none⟩,
   ⟨"B", some 1, some 1, none⟩]

/-- Two records for A with notional summing to exactly 100000. -/
def thresholdEqBatch : List Record :=
  [⟨"A", some 1, some 100000, none⟩, ⟨"A", some 1, some 0, none⟩]

/-- Two records for A with notional summing to 100000.01. -/
def thresholdGtBatch : List Record :=
  [⟨"A", some 1, some 100000, none⟩, ⟨"A", some 1, some (1 / 100), none⟩]

/-- Two records for C, the second with null numeric fields, the first alone
worth 200000. -/
def absentCountBatch : List Record :=
  [⟨"C", some 2000, some 100, none⟩, ⟨"C", none, none, some 5⟩]

/-- A single record for B with a large notional. -/
def singleRecordBatch : List Record :=
  [⟨"B", some 10, some 100000, none⟩]

/-- Claim C1: a record whose `shares` or `price_per_share` is null contributes
0 to its symbol's notional sum — removing it from anywhere in a group leaves
the notional unchanged, and on its own it yields notional 0; the sum is a
total function, so such records never cause an error. -/
theorem absent_fields_contribute_zero (d₁ d₂ : List Record) (r : Record)
    (h : r.shares = none ∨ r.price_per_share = none) :
    notional (d₁ ++ r :: d₂) = notional (d₁ ++ d₂) ∧ notional [r] = 0 := by
  constructor
  · rw [notional_append, notional_append, notional_cons_absent r d₂ h]
  · rw [show ([r] : List Record) = r :: [] from rfl,
      notional_cons_absent r [] h, notional_nil]

/-- Witness for C1 at a concrete record with null `shares`. -/
theorem absent_fields_contribute_zero_witness :
    notional [⟨"A", some 2, some 3, none⟩, ⟨"B", none, some 5, none⟩]
        = notional [⟨"A", some 2, some 3, none⟩] ∧
      notional [⟨"B", none, some 5, none⟩] = 0 :=
  absent_fields_contribute_zero [⟨"A", some 2, some 3, none⟩] []
    ⟨"B", none, some 5, none⟩ (Or.inl rfl)

/-- Claim C2: a symbol whose group in the batch has fewer than 2 records is
never in the selection result, regardless of its notional. -/
theorem few_records_never_selected (data : List Record) (s : String)
    (h : (data.filter (fun r => r.symbol == s)).length < 2) :
    s ∉ select data := by
  rw [mem_select]
  rintro ⟨h2, -⟩
  omega

/-- Witness for C2: a lone record for B with notional 1000000 is not
selected. -/
theorem few_records_never_selected_witness :
    (singleRecordBatch.filter (fun r => r.symbol == "B")).length < 2 ∧
      "B" ∉ select singleRecordBatch :=
  ⟨by norm_num +decide [singleRecordBatch],
   few_records_never_selected _ _ (by norm_num +decide [singleRecordBatch])⟩

/-- Claim C3: a symbol with at least 2 records is selected if and only if its
notional strictly exceeds 100000. -/
theorem notional_threshold_strict (data : List Record) (s : String)
    (h : 2 ≤ (data.filter (fun r => r.symbol == s)).length) :
    s ∈ select data ↔
      100000 < notional (data.filter (fun r => r.symbol == s)) := by
  rw [mem_select]
  exact and_iff_right h

/-- Witness for C3: with 2 records each, notional exactly 100000 is excluded
and notional 100000.01 is included. -/
theorem notional_threshold_strict_witness :
    "A" ∉ select thresholdEqBatch ∧ "A" ∈ select thresholdGtBatch := by
  constructor
  · intro hmem
    have h100 := (notional_threshold_strict thresholdEqBatch "A"
      (by norm_num +decide [thresholdEqBatch])).mp hmem
    norm_num +decide [thresholdEqBatch, notional, List.filterMap_cons] at h100
  · exact (notional_threshold_strict thresholdGtBatch "A"
      (by norm_num +decide [thresholdGtBatch])).mpr
      (by norm_num +decide [thresholdGtBatch, notional, List.filterMap_cons])

/-- Claim C4: every selected symbol appears on at least one record of the
batch. -/
theorem selected_symbols_in_batch (data : List Record) (s : String)
    (h : s ∈ select data) : s ∈ data.map Record.symbol := by
  rw [mem_select] at h
  obtain ⟨h2, -⟩ := h
  have hpos : 0 < (data.filter (fun r => r.symbol == s)).length := by omega
  obtain ⟨r, hr⟩ := List.exists_mem_of_length_pos hpos
  have hrf := List.mem_filter.1 hr
  exact List.mem_map.2 ⟨r, hrf.1, by simpa [beq_iff_eq] using hrf.2⟩

/-- Witness for C4 on the end-to-end example batch. -/
theorem selected_symbols_in_batch_witness :
    "A" ∈ exampleBatch.map Record.symbol :=
  selected_symbols_in_batch exampleBatch "A"
    (by norm_num +decide [select_def, groupInsert, notional, exampleBatch,
      List.filterMap_cons])

/-- Claim C5: on the end-to-end example batch, exactly A is selected:
A has 2 records and notional 110000, B has only 1 record. -/
theorem example_batch_selects_A : select exampleBatch = ["A"] := by
  norm_num +decide [select_def, groupInsert, notional, exampleBatch,
    List.filterMap_cons]

/-- Claim C6: the selection result never contains duplicate symbols. -/
theorem select_nodup (data : List Record) : (select data).Nodup := by
  rw [select_characterization]
  exact (nodup_firstOccurList data).filter _

/-- Claim C7: `UniverseSelection` is pure up to logging — the returned symbol
list does not depend on the pre-existing log contents (the only mutable state
the method touches), and a second invocation on the same batch, with the log
state left by the first, returns the same symbol list. -/
theorem selection_pure (log : List String) (data : List Record) :
    (UniverseSelection log data).1 = select data ∧
      (UniverseSelection ((UniverseSelection log data).2) data).1
        = (UniverseSelection log data).1 := by
  simp [UniverseSelection, select, foldl_log_group]

/-- Claim C8: the history sanity check raises if and only if the history does
not hold exactly 1 period or some period has fewer than 300 records. -/
theorem history_check_raises_iff (history : List (List Record)) :
    (∃ e, historyCheck history = Except.error e) ↔
      history.length ≠ 1 ∨ ∃ d ∈ history, d.length < 300 := by
  by_cases h : history.length = 1
  · simp [historyCheck, h, checkPeriods_error_iff]
  · simp [historyCheck, h]

/-- Claim C9: the selection result lists the qualifying symbols in the order
of each symbol's first occurrence in the batch: it equals the
first-occurrence symbol list filtered by the selection criterion. -/
theorem select_first_occurrence_order (data : List Record) :
    select data = (firstOccurList data).filter (qualifies data) :=
  select_characterization data

/-- Claim C10: a record with null numeric fields still counts toward the
2-record cardinality condition: a symbol with exactly 2 records, one of them
null-valued, is selected whenever the other record alone exceeds the
threshold. -/
theorem absent_record_counts_in_cardinality (data : List Record) (s : String)
    (r₁ r₂ : Record) (sh pr : ℚ)
    (hf : data.filter (fun r => r.symbol == s) = [r₁, r₂])
    (hc : ((r₁.shares = none ∨ r₁.price_per_share = none) ∧
            r₂.shares = some sh ∧ r₂.price_per_share = some pr) ∨
          ((r₂.shares = none ∨ r₂.price_per_share = none) ∧
            r₁.shares = some sh ∧ r₁.price_per_share = some pr))
    (hgt : 100000 < sh * pr) :
    s ∈ select data := by
  rw [mem_select, hf]
  refine ⟨by simp, ?_⟩
  rcases hc with ⟨habs, h1, h2⟩ | ⟨habs, h1, h2⟩
  · rw [notional_cons_absent r₁ [r₂] habs,
      notional_cons_present r₂ [] sh pr h1 h2, notional_nil, add_zero]
    exact hgt
  · rw [notional_cons_present r₁ [r₂] sh pr h1 h2,
      notional_cons_absent r₂ [] habs, notional_nil, add_zero]
    exact hgt

/-- Witness for C10: C has 2 records, the second all-null, the first worth
200000; C is selected. -/
theorem absent_record_counts_in_cardinality_witness :
    "C" ∈ select absentCountBatch :=
  absent_record_counts_in_cardinality absentCountBatch "C"
    ⟨"C", some 2000, some 100, none⟩ ⟨"C", none, none, some 5⟩ 2000 100
    (by norm_num +decide [absentCountBatch])
    (Or.inr ⟨Or.inl rfl, rfl, rfl⟩)
    (by norm_num)
